import Mathlib

/-!
Shallow embedding of the Graph-ETL-Pipeline repository: the waste-item ETL
module (`src/etl/waste_items.py`), the facility ETL module
(`src/etl/facilities.py`) and the graph-store effects they issue through
`src/db/neo4j_db.py`, together with proofs settling the specification
claims about them.

Python `str` values are modelled by Lean `String` (a list of unicode
scalar characters, which matches Python semantics for the code points in
play); the UTF-8 byte encoding used for hashing is modelled explicitly.
Wall-clock timestamp properties (`created_at` / `updated_at` set with
`datetime()` in the Cypher queries) are omitted from the store model:
they are not functions of the input.
-/

set_option maxRecDepth 200000

namespace PyStr

/-- Whitespace class of Python `str.strip()` (the ASCII part, which is all
that occurs in the repository's data and code). -/
def isSpaceChar (c : Char) : Bool :=
  c == ' ' || c == '\t' || c == '\n' || c == '\x0d' || c == '\x0b' || c == '\x0c'

/-- Python `str.strip()` on the character list. -/
def stripChars (l : List Char) : List Char :=
  ((l.dropWhile isSpaceChar).reverse.dropWhile isSpaceChar).reverse

/-- Python `str.strip()`. -/
def strip (s : String) : String := ⟨stripChars s.data⟩

/-- Python `str.lower()` restricted to the characters appearing in the
repository's pattern catalogs and data (ASCII letters plus the German
uppercase umlauts); all other characters are unchanged, which is simple
case folding. -/
def lowerChar (c : Char) : Char :=
  if 'A' ≤ c ∧ c ≤ 'Z' then Char.ofNat (c.toNat + 32)
  else if c = 'Ä' then 'ä'
  else if c = 'Ö' then 'ö'
  else if c = 'Ü' then 'ü'
  else c

/-- Python `str.lower()`. -/
def lower (s : String) : String := ⟨s.data.map lowerChar⟩

/-- Python substring containment `sub in s` on character lists
(the empty string is contained in every string, as in Python). -/
def containsSub (s : List Char) (sub : List Char) : Bool :=
  match s with
  | [] => sub.isEmpty
  | c :: t => sub.isPrefixOf (c :: t) || containsSub t sub

/-- Python `sub in s`. -/
def containsStr (s sub : String) : Bool := containsSub s.data sub.data

/-- Python `s.startswith(pre)`. -/
def startsWith (s pre : String) : Bool := pre.data.isPrefixOf s.data

/-- Python `s.split('\n')` on character lists. -/
def splitNL : List Char → List (List Char)
  | [] => [[]]
  | c :: t =>
    if c = '\n' then [] :: splitNL t
    else
      match splitNL t with
      | [] => [[c]]
      | h :: r => (c :: h) :: r

end PyStr

/-! ### SHA-256

The repository's `generate_uid` is
`hashlib.sha256(name.encode()).hexdigest()[:16]`; `hashlib.sha256` is the
standard FIPS 180-4 SHA-256 over the UTF-8 bytes of the name.  We embed
the hash function itself so that fingerprint claims can be evaluated on
concrete inputs. -/

namespace Sha256

/-- Truncation to a 32-bit word. -/
def w32 (n : Nat) : Nat := n % 4294967296

/-- Right rotation of a 32-bit word. -/
def rotr (n x : Nat) : Nat := w32 ((x >>> n) ||| (x <<< (32 - n)))

def bigSigma0 (x : Nat) : Nat := (rotr 2 x) ^^^ (rotr 13 x) ^^^ (rotr 22 x)

def bigSigma1 (x : Nat) : Nat := (rotr 6 x) ^^^ (rotr 11 x) ^^^ (rotr 25 x)

def smallSigma0 (x : Nat) : Nat := (rotr 7 x) ^^^ (rotr 18 x) ^^^ (x >>> 3)

def smallSigma1 (x : Nat) : Nat := (rotr 17 x) ^^^ (rotr 19 x) ^^^ (x >>> 10)

def chFn (x y z : Nat) : Nat := (x &&& y) ^^^ ((x ^^^ 0xffffffff) &&& z)

def majFn (x y z : Nat) : Nat := (x &&& y) ^^^ (x &&& z) ^^^ (y &&& z)

/-- The 64 SHA-256 round constants (FIPS 180-4 §4.2.2), in rows of eight. -/
def K : List Nat :=
  [0x428a2f98, 0x71374491, 0xb5c0fbcf, 0xe9b5dba5, 0x3956c25b, 0x59f111f1, 0x923f82a4, 0xab1c5ed5] ++
  [0xd807aa98, 0x12835b01, 0x243185be, 0x550c7dc3, 0x72be5d74, 0x80deb1fe, 0x9bdc06a7, 0xc19bf174] ++
  [0xe49b69c1, 0xefbe4786, 0x0fc19dc6, 0x240ca1cc, 0x2de92c6f, 0x4a7484aa, 0x5cb0a9dc, 0x76f988da] ++
  [0x983e5152, 0xa831c66d, 0xb00327c8, 0xbf597fc7, 0xc6e00bf3, 0xd5a79147, 0x06ca6351, 0x14292967] ++
  [0x27b70a85, 0x2e1b2138, 0x4d2c6dfc, 0x53380d13, 0x650a7354, 0x766a0abb, 0x81c2c92e, 0x92722c85] ++
  [0xa2bfe8a1, 0xa81a664b, 0xc24b8b70, 0xc76c51a3, 0xd192e819, 0xd6990624, 0xf40e3585, 0x106aa070] ++
  [0x19a4c116, 0x1e376c08, 0x2748774c, 0x34b0bcb5, 0x391c0cb3, 0x4ed8aa4a, 0x5b9cca4f, 0x682e6ff3] ++
  [0x748f82ee, 0x78a5636f, 0x84c87814, 0x8cc70208, 0x90befffa, 0xa4506ceb, 0xbef9a3f7, 0xc67178f2]

/-- Initial hash state. -/
structure Hash8 where
  a : Nat
  b : Nat
  c : Nat
  d : Nat
  e : Nat
  f : Nat
  g : Nat
  hh : Nat
deriving Repr, DecidableEq

def H0 : Hash8 :=
  ⟨0x6a09e667, 0xbb67ae85, 0x3c6ef372, 0xa54ff53a, 0x510e527f, 0x9b05688c, 0x1f83d9ab, 0x5be0cd19⟩

/-- Group a byte list into big-endian 32-bit words. -/
def toWords : List Nat → List Nat
  | b0 :: b1 :: b2 :: b3 :: rest => (((b0 * 256 + b1) * 256 + b2) * 256 + b3) :: toWords rest
  | _ => []

/-- Append the next word of the message schedule. -/
def stepW (w : List Nat) : List Nat :=
  let t := w.length
  let g : Nat → Nat := fun i => w.getD (t - i) 0
  w ++ [w32 (smallSigma1 (g 2) + g 7 + smallSigma0 (g 15) + g 16)]

/-- Extend 16 words to the full 64-word schedule. -/
def wSchedule (first16 : List Nat) : List Nat := stepW^[48] first16

/-- One SHA-256 round. -/
def round (st : Hash8) (kt wt : Nat) : Hash8 :=
  let t1 := w32 (st.hh + bigSigma1 st.e + chFn st.e st.f st.g + kt + wt)
  let t2 := w32 (bigSigma0 st.a + majFn st.a st.b st.c)
  ⟨w32 (t1 + t2), st.a, st.b, st.c, w32 (st.d + t1), st.e, st.f, st.g⟩

/-- Compress one 64-byte block into the running hash state. -/
def compressBlock (hs : Hash8) (block : List Nat) : Hash8 :=
  let w := wSchedule (toWords block)
  let fin := (K.zip w).foldl (fun st p => round st p.1 p.2) hs
  ⟨w32 (hs.a + fin.a), w32 (hs.b + fin.b), w32 (hs.c + fin.c), w32 (hs.d + fin.d),
   w32 (hs.e + fin.e), w32 (hs.f + fin.f), w32 (hs.g + fin.g), w32 (hs.hh + fin.hh)⟩

/-- Big-endian bytes of a natural number, fixed width. -/
def natToBytesBE : Nat → Nat → List Nat
  | 0, _ => []
  | k + 1, n => (n >>> (8 * k)) % 256 :: natToBytesBE k n

/-- FIPS 180-4 message padding: `0x80`, zeros to 56 mod 64, then the
64-bit big-endian bit length. -/
def padMessage (msg : List Nat) : List Nat :=
  let len := msg.length
  let padZeros := (64 + 56 - ((len + 1) % 64)) % 64
  msg ++ [0x80] ++ List.replicate padZeros 0 ++ natToBytesBE 8 (len * 8)

/-- Split a padded message into 64-byte blocks.  The fuel argument (the
message length suffices, since every step consumes at least one byte)
keeps the recursion structural so that it reduces definitionally. -/
def chunks64Fuel : Nat → List Nat → List (List Nat)
  | 0, _ => []
  | _, [] => []
  | fuel + 1, c :: t => ((c :: t).take 64) :: chunks64Fuel fuel ((c :: t).drop 64)

def chunks64 (l : List Nat) : List (List Nat) := chunks64Fuel l.length l

def hexDigit (n : Nat) : Char := if n < 10 then Char.ofNat (48 + n) else Char.ofNat (87 + n)

/-- Lowercase hexadecimal rendering of one 32-bit word. -/
def wordToHex (x : Nat) : List Char :=
  [hexDigit ((x >>> 28) &&& 15), hexDigit ((x >>> 24) &&& 15), hexDigit ((x >>> 20) &&& 15),
   hexDigit ((x >>> 16) &&& 15), hexDigit ((x >>> 12) &&& 15), hexDigit ((x >>> 8) &&& 15),
   hexDigit ((x >>> 4) &&& 15), hexDigit (x &&& 15)]

/-- SHA-256 hex digest of a byte list, as Python
`hashlib.sha256(b).hexdigest()`. -/
def sha256Hex (msg : List Nat) : List Char :=
  let hs := (chunks64 (padMessage msg)).foldl compressBlock H0
  wordToHex hs.a ++ wordToHex hs.b ++ wordToHex hs.c ++ wordToHex hs.d ++
  wordToHex hs.e ++ wordToHex hs.f ++ wordToHex hs.g ++ wordToHex hs.hh

/-- UTF-8 bytes of one character, as produced by Python `str.encode()`. -/
def utf8Bytes (c : Char) : List Nat :=
  let n := c.toNat
  if n < 0x80 then [n]
  else if n < 0x800 then [0xc0 ||| (n >>> 6), 0x80 ||| (n &&& 0x3f)]
  else if n < 0x10000 then
    [0xe0 ||| (n >>> 12), 0x80 ||| ((n >>> 6) &&& 0x3f), 0x80 ||| (n &&& 0x3f)]
  else
    [0xf0 ||| (n >>> 18), 0x80 ||| ((n >>> 12) &&& 0x3f),
     0x80 ||| ((n >>> 6) &&& 0x3f), 0x80 ||| (n &&& 0x3f)]

/-- Python `s.encode()` (UTF-8). -/
def encodeUtf8 (s : String) : List Nat :=
  s.data.foldr (fun c acc => utf8Bytes c ++ acc) []

end Sha256

/-! ### Embedding of `src/etl/waste_items.py` -/

namespace WasteItems

/-- Bin types that should be `WasteStream` nodes, from `WASTE_STREAMS`
(a Python set used only through membership tests). -/
def WASTE_STREAMS : List String :=
  ["Restabfalltonne",
   "Biotonne",
   "Altpapiertonne",
   "Verpackungstonne",
   "Verpackungstonne (Gelbe Tonne)"]

/-- Facility name normalization mapping `FACILITY_NAME_MAP`: maps CSV
variants to canonical names in the database. -/
def FACILITY_NAME_MAP : List (String × String) :=
  [("Fachhandel/Hersteller", "Fachhandel / Hersteller"),
   ("Fachhandel / Herstelle", "Fachhandel / Hersteller"),
   ("Mobile Elektrokleingerätesam-mlung", "Mobile Elektrokleingerätesammlung"),
   ("Abfallumladeanlage FES", "FES-Abfallumladeanlage"),
   ("Abfallumladeanlage (FES)", "FES-Abfallumladeanlage"),
   ("Abfallumladeanlage", "FES-Abfallumladeanlage"),
   ("Abfallumladeanlage \tFES", "FES-Abfallumladeanlage"),
   ("Schadstoffsammlung FES", "Schadstoffsammlung"),
   ("Schadstoffsammlung \tFES", "Schadstoffsammlung"),
   ("Schadstoffsammlung\t FES", "Schadstoffsammlung"),
   ("Schadstoffmobil FES", "Schadstoffsammlung"),
   ("Restmülltonne", "Restabfalltonne")]

/-- Python `dict` lookup on the association list embedding. -/
def lookupA (k : String) : List (String × String) → Option String
  | [] => none
  | (k', v) :: t => if k = k' then some v else lookupA k t

/-- Function `generate_uid` of `waste_items.py`: deterministic UID from a
waste item name, `hashlib.sha256(name.encode()).hexdigest()[:16]`. -/
def generate_uid (name : String) : String :=
  ⟨(Sha256.sha256Hex (Sha256.encodeUtf8 name)).take 16⟩

/-- Function `normalize_facility_name`: strip, then look the name up in
`FACILITY_NAME_MAP`, defaulting to the stripped name. -/
def normalize_facility_name (name : String) : String :=
  let name := PyStr.strip name
  (lookupA name FACILITY_NAME_MAP).getD name

/-- The `skip_patterns` list of `is_valid_facility_name`. -/
def skip_patterns : List String :=
  ["laut ",
   "hinweis",
   " = ",
   "stück",
   "mengen",
   "kartons",
   "polizei",
   "elektrische zahnbürste",
   "sonst ",
   "selbstgebaut",
   "aus dem handel",
   "haushaltsübliche",
   "saubere ",
   "größere ",
   "kleinere "]

/-- The tuple of prefixes that `is_valid_facility_name` rejects with
`startswith`. -/
def startPrefixes : List String := ["laut", "ab ", "bis ", "lauut"]

/-- Function `is_valid_facility_name`: heuristic filter distinguishing
genuine facility names from notes and comments. -/
def is_valid_facility_name (name : String) : Bool :=
  let name := PyStr.strip name
  if name = "" ∨ name.length < 3 then false
  else
    let name_lower := PyStr.lower name
    if skip_patterns.any (fun p => PyStr.containsStr name_lower p) then false
    else if startPrefixes.any (fun p => PyStr.startsWith name_lower p) then false
    else if PyStr.containsStr name_lower " oder " then false
    else true

/-- The ordered catalog `known_patterns` of `extract_facilities_from_concat`
(longer patterns first).  The two raw-string patterns containing `\(` and
`\)` are regex escapes of literal parentheses, so every pattern is a
literal string matched with `re.IGNORECASE`. -/
def known_patterns : List String :=
  ["Altkleidercontainer im öffentlichen Straßenraum",
   "Self Service am Wertstoffhof Nord",
   "Mobile Elektrokleingerätesam-mlung",
   "Mobile Elektrokleingerätesammlung",
   "Verpackungstonne (Gelbe Tonne)",
   "Öffentliche Gebäude / Einzelhandel",
   "Öffentliche Gebäude/Einzelhandel",
   "Fachhandel / Hersteller",
   "Fachhandel/Hersteller",
   "Abfallumladeanlage FES",
   "FES-Abfallumladeanlage",
   "Altpapiersortieranlage",
   "FES-Aktenvernichtung",
   "Deponiepark Wicker",
   "Rhein-Main-Deponie",
   "FES-Servicecenter",
   "Containergestellung",
   "Schadstoffsammlung",
   "Wertstoffhof Nord",
   "Wertstoffhof West",
   "Wertstoffhof Süd",
   "Wertstoffhof Ost",
   "Kofferraumservice",
   "Recyclingzentrum",
   "Verpackungstonne",
   "Altglascontainer",
   "Restabfalltonne",
   "Altpapiertonne",
   "Kleiderspende",
   "Möbelspende",
   "Sachspende",
   "Wertstoffinsel",
   "Altölverordnung",
   "Klamoddekurier",
   "Betriebshöfe FES",
   "Auf Anfrage",
   "Sperrmüll",
   "GWR GmbH",
   "RMB GmbH",
   "FFR GmbH",
   "Biotonne",
   "easi"]

/-- Case-insensitive character comparison used by `re.IGNORECASE` matching
of the literal patterns. -/
def ciCharEq (a b : Char) : Bool := PyStr.lowerChar a == PyStr.lowerChar b

/-- Case-insensitive test that `pat` is a prefix of `text`. -/
def isPrefixCI : List Char → List Char → Bool
  | [], _ => true
  | _ :: _, [] => false
  | p :: ps, c :: cs => ciCharEq p c && isPrefixCI ps cs

/-- Full case-insensitive equality (same length, characters fold equal). -/
def ciMatch : List Char → List Char → Bool
  | [], [] => true
  | p :: ps, c :: cs => ciCharEq p c && ciMatch ps cs
  | _, _ => false

/-- Python `re.findall(pattern, text, re.IGNORECASE)` for a literal
nonempty pattern: all non-overlapping matches, scanning left to right,
returning the matched substrings with their original casing.  The fuel
argument bounds recursion depth; `findAllCI` supplies `text.length`,
which is sufficient because every step consumes at least one character. -/
def findAllCIFuel (pat : List Char) : Nat → List Char → List (List Char)
  | 0, _ => []
  | _, [] => []
  | fuel + 1, c :: t =>
    if !pat.isEmpty && isPrefixCI pat (c :: t) then
      (c :: t).take pat.length :: findAllCIFuel pat fuel ((c :: t).drop pat.length)
    else
      findAllCIFuel pat fuel t

def findAllCI (pat text : List Char) : List (List Char) :=
  findAllCIFuel pat text.length text

/-- Python `s.replace(old, new, 1)`: replace the first (case-sensitive)
occurrence of `old`. -/
def replaceFirst (s old new : List Char) : List Char :=
  match s with
  | [] => if old.isEmpty then new else []
  | c :: t =>
    if old.isPrefixOf (c :: t) then new ++ (c :: t).drop old.length
    else c :: replaceFirst t old new

/-- One match of the inner loop of `extract_facilities_from_concat`:
append the normalized match and blank out its first occurrence in the
remaining text. -/
def extractStepMatch (acc : List String × List Char) (m : List Char) : List String × List Char :=
  (acc.1 ++ [normalize_facility_name ⟨m⟩], replaceFirst acc.2 m [' '])

/-- One pattern of the outer loop of `extract_facilities_from_concat`:
find all matches in the current remaining text, then process them in
order. -/
def extractPattern (acc : List String × List Char) (pat : String) : List String × List Char :=
  (findAllCI pat.data acc.2).foldl extractStepMatch acc

/-- Function `extract_facilities_from_concat`: extract facility names from
a concatenated string using the ordered pattern catalog. -/
def extract_facilities_from_concat (text : String) : List String :=
  (known_patterns.foldl extractPattern ([], text.data)).1

/-- The inner `for name in extracted` loop of `parse_disposal_targets`:
keep the normalization of every extracted name passing the validity
filter. -/
def keepValid (acc : List String) (name : String) : List String :=
  if is_valid_facility_name name then acc ++ [normalize_facility_name name] else acc

/-- Processing of one candidate part inside `parse_disposal_targets`.
`noNL` records whether the original cell contained no line break (the
code tests `'\n' not in disposal_text`). -/
def processPart (noNL : Bool) (acc : List String) (partRaw : String) : List String :=
  let part := PyStr.strip partRaw
  if part = "" ∨ part = "-" then acc
  else if noNL ∧ part.length > 30 then
    (extract_facilities_from_concat part).foldl keepValid acc
  else if is_valid_facility_name part then
    acc ++ [normalize_facility_name part]
  else
    (extract_facilities_from_concat part).foldl keepValid acc

/-- Deduplication keeping first occurrences.  The code uses
`list(set(targets))`, whose order is an unspecified artifact of Python's
hash; all claims about the parser output are stated up to set or
permutation, so any fixed representative order is faithful. -/
def dedupFirstAux (seen : List String) : List String → List String
  | [] => []
  | x :: t => if x ∈ seen then dedupFirstAux seen t else x :: dedupFirstAux (x :: seen) t

def dedupFirst (l : List String) : List String := dedupFirstAux [] l

/-- Function `parse_disposal_targets`: parse the Entsorgungsweg column of
one catalog cell into a deduplicated list of normalized, validated target
names. -/
def parse_disposal_targets (disposal_text : String) : List String :=
  if disposal_text = "" ∨ PyStr.strip disposal_text = "-" then []
  else
    let hasNL := disposal_text.data.contains '\n'
    let parts : List String :=
      if hasNL then (PyStr.splitNL disposal_text.data).map String.mk
      else [disposal_text]
    dedupFirst (parts.foldl (processPart (!hasNL)) [])

/-- Function `classify_target`: classify a disposal target as `stream` or
`facility`. -/
def classify_target (target_name : String) (existing_facilities : List String) :
    String × String :=
  if target_name ∈ WASTE_STREAMS then ("stream", target_name)
  else if target_name ∈ existing_facilities then ("facility", target_name)
  else ("facility", target_name)

end WasteItems

/-! ### Embedding of `src/etl/facilities.py` and the graph store

The Neo4j store is modelled structurally: node collections are lists of
node records and relationship collections are lists of endpoint-name
pairs (the `MERGE` queries key relationships by the endpoint names, and
`result.single()` presence is a membership test).  Timestamp properties
are omitted (wall clock). -/

namespace Facilities

/-- Function `generate_uid` of `facilities.py` (textually identical to the
one in `waste_items.py`). -/
def generate_uid (name : String) : String :=
  ⟨(Sha256.sha256Hex (Sha256.encodeUtf8 name)).take 16⟩

/-- One incoming facility record from `disposal_map_db.json`, with the
string fields the ETL reads via `facility.get(key, '')` (a missing key is
the empty string). -/
structure FacRecord where
  name : String
  address : String
  opening_hours : String
  contact : String
  additional_info : String
  link : String
deriving Repr, DecidableEq

/-- A `Facility` node in the store. -/
structure Facility where
  uid : String
  name : String
  address : String
  opening_hours : String
  contact : String
  additional_info : String
  link : String
deriving Repr, DecidableEq

/-- The uid the import computes for a record:
`generate_uid(facility.get('name', '').strip())`. -/
def uidOf (r : FacRecord) : String := generate_uid (PyStr.strip r.name)

/-- The in-memory merge step of `load_facilities`
(`if value and not existing.get(key): existing[key] = value`): each field
of the existing entry is replaced only when it is empty and the incoming
value is non-empty. -/
def mergeRecord (existing incoming : FacRecord) : FacRecord :=
  { name := if incoming.name ≠ "" ∧ existing.name = "" then incoming.name else existing.name,
    address := if incoming.address ≠ "" ∧ existing.address = "" then incoming.address else existing.address,
    opening_hours := if incoming.opening_hours ≠ "" ∧ existing.opening_hours = "" then incoming.opening_hours else existing.opening_hours,
    contact := if incoming.contact ≠ "" ∧ existing.contact = "" then incoming.contact else existing.contact,
    additional_info := if incoming.additional_info ≠ "" ∧ existing.additional_info = "" then incoming.additional_info else existing.additional_info,
    link := if incoming.link ≠ "" ∧ existing.link = "" then incoming.link else existing.link }

/-- Update of an association list entry in place (Python dict assignment
`seen[name] = ...` for a present key keeps insertion order). -/
def updateAssoc (k : String) (v : FacRecord) :
    List (String × FacRecord) → List (String × FacRecord)
  | [] => []
  | (k', v') :: t => if k = k' then (k', v) :: t else (k', v') :: updateAssoc k v t

def lookupRec (k : String) : List (String × FacRecord) → Option FacRecord
  | [] => none
  | (k', v') :: t => if k = k' then some v' else lookupRec k t

/-- One entry of the flatten-and-dedupe loop of `load_facilities`. -/
def loadStep (seen : List (String × FacRecord)) (r : FacRecord) :
    List (String × FacRecord) :=
  let name := PyStr.strip r.name
  if name = "" then seen
  else
    match lookupRec name seen with
    | none => seen ++ [(name, r)]
    | some existing => updateAssoc name (mergeRecord existing r) seen

/-- Function `load_facilities` on the flattened entry list: dedupe by
stripped name, merging fields with a preference for non-empty values. -/
def load_facilities (entries : List FacRecord) : List FacRecord :=
  (entries.foldl loadStep []).map Prod.snd

/-- The `ON MATCH SET` clause of the facility `MERGE` query: a field is
overwritten only when the incoming parameter is non-empty (`CASE WHEN
$x <> '' THEN $x ELSE f.x END`); `uid` and `name` are not touched. -/
def applyRec (r : FacRecord) (f : Facility) : Facility :=
  { f with
    address := if r.address ≠ "" then r.address else f.address,
    opening_hours := if r.opening_hours ≠ "" then r.opening_hours else f.opening_hours,
    contact := if r.contact ≠ "" then r.contact else f.contact,
    additional_info := if r.additional_info ≠ "" then r.additional_info else f.additional_info,
    link := if r.link ≠ "" then r.link else f.link }

/-- The `ON MATCH SET` update applied to one node when its uid matches. -/
def matchUpd (f : Facility) (r : FacRecord) : Facility :=
  if f.uid == uidOf r then applyRec r f else f

/-- The `ON CREATE SET` clause: a fresh node with the record's fields. -/
def newFacility (r : FacRecord) : Facility :=
  { uid := uidOf r, name := PyStr.strip r.name, address := r.address,
    opening_hours := r.opening_hours, contact := r.contact,
    additional_info := r.additional_info, link := r.link }

/-- One `MERGE (f:Facility {uid: $uid}) ...` query of `import_facilities`:
if any node carries the uid, every such node receives the `ON MATCH`
update, otherwise a node is created from the record. -/
def stepFacility (fs : List Facility) (r : FacRecord) : List Facility :=
  if fs.any (fun f => f.uid == uidOf r) then fs.map (fun f => matchUpd f r)
  else fs ++ [newFacility r]

/-- The non-dry-run store effect of `import_facilities` on the Facility
node collection, one `MERGE` per loaded record in order. -/
def import_facilities (records : List FacRecord) (fs : List Facility) :
    List Facility :=
  records.foldl stepFacility fs

end Facilities

/-! ### The store and the import of `waste_items.py` -/

namespace WasteItems

open Facilities (Facility)

/-- Structural state of the graph store as the waste-item ETL sees it.
Relationships are keyed by endpoint names, mirroring the `MERGE`
patterns of the queries. -/
structure Store where
  wasteItems : List (String × String)
  facilities : List Facility
  wasteStreams : List (String × String)
  disposedAt : List (String × String)
  disposedIn : List (String × String)
deriving Repr, DecidableEq

def itemNames (S : Store) : List String := S.wasteItems.map Prod.fst

def facilityNames (S : Store) : List String := S.facilities.map Facility.name

def streamNames (S : Store) : List String := S.wasteStreams.map Prod.fst

/-- One parsed catalog row as produced by `load_waste_items`. -/
structure WasteItemRow where
  name : String
  disposal_targets : List String
deriving Repr, DecidableEq

/-- The structured result dict of `import_waste_items`.  The live run
returns `streams_created`, the dry run `streams_needed`; the model keeps
both fields, the inapplicable one at 0.  `warnings` records the
`logger.warning` emissions of the run (unmatched facility targets). -/
structure ImportStats where
  items_loaded : Nat
  items_created : Nat
  streams_created : Nat
  streams_needed : Nat
  relationships_created : Nat
  dry_run : Bool
  warnings : List String
deriving Repr, DecidableEq

/-- The `MERGE (w:WasteItem {name: $name})` query: create the node with
its uid if absent; `ON MATCH` only touches the timestamp (omitted). -/
def mergeWasteItem (name uid : String) (S : Store) : Store :=
  if name ∈ itemNames S then S
  else { S with wasteItems := S.wasteItems ++ [(name, uid)] }

/-- Relationship `MERGE`: create the endpoint pair once. -/
def addIfAbsent (x : String × String) (l : List (String × String)) :
    List (String × String) :=
  if x ∈ l then l else l ++ [x]

/-- Processing of one disposal target inside the live-run loop.  The
stream query runs only when the `MATCH (w:WasteItem {name})` clause finds
the item; the facility query creates the `DISPOSED_AT` pair only when
both endpoint `MATCH` clauses succeed, and otherwise `result.single()`
is empty and a warning is logged. -/
def processTarget (item_name : String) (existing_facilities : List String)
    (acc : Store × ImportStats) (target : String) : Store × ImportStats :=
  let S := acc.1
  let st := acc.2
  let tr := classify_target target existing_facilities
  if tr.1 = "stream" then
    if item_name ∈ itemNames S then
      let S' := { S with
        wasteStreams :=
          if tr.2 ∈ streamNames S then S.wasteStreams
          else S.wasteStreams ++ [(tr.2, generate_uid tr.2)],
        disposedIn := addIfAbsent (item_name, tr.2) S.disposedIn }
      (S', { st with
        streams_created := st.streams_created + 1,
        relationships_created := st.relationships_created + 1 })
    else (S, st)
  else
    if item_name ∈ itemNames S ∧ tr.2 ∈ facilityNames S then
      ({ S with disposedAt := addIfAbsent (item_name, tr.2) S.disposedAt },
       { st with relationships_created := st.relationships_created + 1 })
    else
      (S, { st with
        warnings := st.warnings ++ ["Could not link to facility: " ++ tr.2] })

/-- Processing of one catalog row in the live-run loop. -/
def processItem (existing_facilities : List String)
    (acc : Store × ImportStats) (item : WasteItemRow) : Store × ImportStats :=
  let S1 := mergeWasteItem item.name (generate_uid item.name) acc.1
  let st1 := { acc.2 with items_created := acc.2.items_created + 1 }
  item.disposal_targets.foldl (processTarget item.name existing_facilities) (S1, st1)

/-- One target of the dry-run scan: record the stream as needed, or the
facility name as unmatched (Python `set.add`, modelled as `Finset`
insertion). -/
def dryStep (existing_facilities : List String)
    (acc : Finset String × Finset String) (target : String) :
    Finset String × Finset String :=
  let tr := classify_target target existing_facilities
  if tr.1 = "stream" then (insert tr.2 acc.1, acc.2)
  else if tr.2 ∉ existing_facilities then (acc.1, insert tr.2 acc.2)
  else acc

/-- One item of the dry-run scan. -/
def dryItem (existing_facilities : List String)
    (acc : Finset String × Finset String) (item : WasteItemRow) :
    Finset String × Finset String :=
  item.disposal_targets.foldl (dryStep existing_facilities) acc

/-- The dry-run scan: accumulate the set of needed streams and the set of
unmatched facility names. -/
def dryRunScan (existing_facilities : List String) (items : List WasteItemRow) :
    Finset String × Finset String :=
  items.foldl (dryItem existing_facilities) (∅, ∅)

/-- Function `import_waste_items` on an already-loaded catalog (file
loading is I/O; the catalog argument is the `load_waste_items` output).
Returns the final store and the statistics dict.  The dry-run branch
returns the dict `{items_loaded, items_created: 0, streams_needed,
relationships_created: 0, dry_run: True}`; its unmatched-facility set is
computed in `dryRunScan` but only logged, not returned, so `warnings` is
empty there. -/
def import_waste_items (items : List WasteItemRow) (dry_run : Bool)
    (S : Store) : Store × ImportStats :=
  let existing_facilities := facilityNames S
  if dry_run then
    let scan := dryRunScan existing_facilities items
    (S, { items_loaded := items.length, items_created := 0,
          streams_created := 0, streams_needed := scan.1.card,
          relationships_created := 0, dry_run := true,
          warnings := [] })
  else
    items.foldl (processItem existing_facilities)
      (S, { items_loaded := items.length, items_created := 0,
            streams_created := 0, streams_needed := 0,
            relationships_created := 0, dry_run := false, warnings := [] })

/-- The store after a live (non-dry-run) import. -/
def importStore (items : List WasteItemRow) (S : Store) : Store :=
  (import_waste_items items false S).1

end WasteItems

/-! ### Basic lemmas about the string primitives -/

namespace PyStr

theorem dropWhile_self (p : Char → Bool) (l : List Char) :
    (l.dropWhile p).dropWhile p = l.dropWhile p := by
  induction l with
  | nil => rfl
  | cons c t ih =>
    by_cases h : p c
    · simp [List.dropWhile, h, ih]
    · simp [List.dropWhile, h]

theorem dropWhile_head_not (p : Char → Bool) :
    ∀ (l : List Char) (c : Char) (t : List Char),
      l.dropWhile p = c :: t → p c = false := by
  intro l
  induction l with
  | nil => intro c t h; simp [List.dropWhile] at h
  | cons a l ih =>
    intro c t h
    by_cases hp : p a
    · exact ih c t (by simpa [List.dropWhile, hp] using h)
    · simp [List.dropWhile, hp] at h
      rw [← h.1]
      exact Bool.eq_false_iff.mpr hp

theorem dropWhile_suffixE (p : Char → Bool) (l : List Char) :
    ∃ s, s ++ l.dropWhile p = l := by
  induction l with
  | nil => exact ⟨[], rfl⟩
  | cons c t ih =>
    by_cases h : p c
    · obtain ⟨s, hs⟩ := ih
      exact ⟨c :: s, by simp [List.dropWhile, h, hs]⟩
    · exact ⟨[], by simp [List.dropWhile, h]⟩

theorem stripChars_idem (l : List Char) :
    stripChars (stripChars l) = stripChars l := by
  unfold stripChars
  have h1 : ∀ M : List Char, M = l.dropWhile isSpaceChar →
      (M.reverse.dropWhile isSpaceChar).reverse.dropWhile isSpaceChar
        = (M.reverse.dropWhile isSpaceChar).reverse := by
    intro M hM
    cases hR : (M.reverse.dropWhile isSpaceChar).reverse with
    | nil => rfl
    | cons c t =>
      obtain ⟨s, hs⟩ := dropWhile_suffixE isSpaceChar M.reverse
      have hM2 : M = (M.reverse.dropWhile isSpaceChar).reverse ++ s.reverse := by
        have := congrArg List.reverse hs
        simpa [List.reverse_append] using this.symm
      have hc : isSpaceChar c = false := by
        apply dropWhile_head_not isSpaceChar l c (t ++ s.reverse)
        rw [← hM, hM2, hR]
        simp
      simp [List.dropWhile_cons, hc]
  rw [h1 (l.dropWhile isSpaceChar) rfl, List.reverse_reverse, dropWhile_self]

theorem strip_idem (s : String) : strip (strip s) = strip s :=
  congrArg String.mk (stripChars_idem s.data)

end PyStr

/-! ### Lemmas about normalization, validity and classification -/

namespace WasteItems

theorem lookupA_mem {k v : String} :
    ∀ {l : List (String × String)}, lookupA k l = some v → (k, v) ∈ l := by
  intro l
  induction l with
  | nil => intro h; simp [lookupA] at h
  | cons p t ih =>
    obtain ⟨k', v'⟩ := p
    intro h
    simp only [lookupA] at h
    split at h
    · rename_i he
      injection h with h'
      subst h'
      subst he
      exact List.mem_cons_self _ _
    · exact List.mem_cons_of_mem _ (ih h)

/-- Every canonical value of the normalization map is already stripped, is
not itself a map key, and passes the validity filter. -/
theorem map_values_fixed :
    ∀ pr ∈ FACILITY_NAME_MAP,
      PyStr.strip pr.2 = pr.2 ∧ lookupA pr.2 FACILITY_NAME_MAP = none ∧
        is_valid_facility_name pr.2 = true := by decide

theorem normalize_eq (n : String) :
    normalize_facility_name n
      = (lookupA (PyStr.strip n) FACILITY_NAME_MAP).getD (PyStr.strip n) := rfl

theorem normalize_idem (n : String) :
    normalize_facility_name (normalize_facility_name n) = normalize_facility_name n := by
  rw [normalize_eq n]
  cases hl : lookupA (PyStr.strip n) FACILITY_NAME_MAP with
  | none =>
    simp only [Option.getD_none]
    rw [normalize_eq, PyStr.strip_idem, hl]
    simp
  | some v =>
    have hv := map_values_fixed (PyStr.strip n, v) (lookupA_mem hl)
    have h1 : PyStr.strip v = v := hv.1
    have h2 : lookupA v FACILITY_NAME_MAP = none := hv.2.1
    simp only [Option.getD_some]
    rw [normalize_eq, h1, h2]
    simp

theorem is_valid_strip (s : String) :
    is_valid_facility_name (PyStr.strip s) = is_valid_facility_name s := by
  simp only [is_valid_facility_name, PyStr.strip_idem]

theorem valid_normalize {n : String} (h : is_valid_facility_name n = true) :
    is_valid_facility_name (normalize_facility_name n) = true := by
  rw [normalize_eq n]
  cases hl : lookupA (PyStr.strip n) FACILITY_NAME_MAP with
  | none =>
    simp only [Option.getD_none]
    rw [is_valid_strip]
    exact h
  | some v =>
    have hv := map_values_fixed (PyStr.strip n, v) (lookupA_mem hl)
    have h3 : is_valid_facility_name v = true := hv.2.2
    simpa using h3

theorem classify_eq (t : String) (ex : List String) :
    classify_target t ex =
      if t ∈ WASTE_STREAMS then ("stream", t) else ("facility", t) := by
  by_cases h : t ∈ WASTE_STREAMS
  · simp [classify_target, h]
  · by_cases h2 : t ∈ ex <;> simp [classify_target, h, h2]

end WasteItems

/-! ### Claim C6: fingerprint determinism -/

/-- Claim C6 counterexample: `generate_uid` does not trim its argument, so
it is not a function of the trimmed name: on `" a"` the uid differs from
the uid of the stripped name `"a"`. -/
theorem claim_C6_counterexample :
    WasteItems.generate_uid " a" ≠ WasteItems.generate_uid (PyStr.strip " a") := by
  decide

/-- Claim C6 (amended): the fingerprint is a pure deterministic function
of the raw name string (callers pass already-trimmed names, on which
further trimming changes nothing), and the waste-item module's
`generate_uid` agrees with the facility module's `generate_uid` on every
input. -/
theorem claim_C6_uid_deterministic (s : String) :
    WasteItems.generate_uid s = WasteItems.generate_uid s ∧
    WasteItems.generate_uid s = Facilities.generate_uid s ∧
    WasteItems.generate_uid (PyStr.strip (PyStr.strip s))
      = WasteItems.generate_uid (PyStr.strip s) :=
  ⟨rfl, rfl, by rw [PyStr.strip_idem]⟩

/-! ### Claim C7: classification totality and exclusivity -/

/-- Claim C7: `classify_target` always returns exactly one of the kinds
`stream` and `facility` paired with the unchanged name; `stream` is
returned exactly when the name is in the fixed `WASTE_STREAMS`
enumeration; and the result does not depend on the known-facilities
set. -/
theorem claim_C7_classify_total (name : String) (fs fs' : List String) :
    ((WasteItems.classify_target name fs).1 = "stream" ∨
      (WasteItems.classify_target name fs).1 = "facility") ∧
    ¬((WasteItems.classify_target name fs).1 = "stream" ∧
      (WasteItems.classify_target name fs).1 = "facility") ∧
    ((WasteItems.classify_target name fs).1 = "stream" ↔
      name ∈ WasteItems.WASTE_STREAMS) ∧
    (WasteItems.classify_target name fs).2 = name ∧
    WasteItems.classify_target name fs = WasteItems.classify_target name fs' := by
  by_cases h : name ∈ WasteItems.WASTE_STREAMS <;>
    simp [WasteItems.classify_eq, h]

/-! ### Claim C9: the concatenated-cell scenario -/

/-- Claim C9: the cell `"Wertstoffhof Nord Wertstoffhof West
Schadstoffsammlung"` has no line break and more than 30 characters, and
the parser returns exactly the three names, each once (as a set; the
Python `list(set(...))` order is unspecified, so the result is stated up
to permutation). -/
theorem claim_C9_concat_scenario :
    ("Wertstoffhof Nord Wertstoffhof West Schadstoffsammlung").data.contains '\n' = false ∧
    ("Wertstoffhof Nord Wertstoffhof West Schadstoffsammlung").length > 30 ∧
    (WasteItems.parse_disposal_targets
        "Wertstoffhof Nord Wertstoffhof West Schadstoffsammlung").Perm
      ["Wertstoffhof Nord", "Wertstoffhof West", "Schadstoffsammlung"] := by
  decide

/-! ### Claim C8: validity filter monotonicity -/

/-- Claim C8 counterexample: the string `"xy = "` contains the
disqualifying substring `" = "` (case-insensitively), yet
`is_valid_facility_name` accepts it: the filter checks containment only
on the stripped string, and stripping removes the trailing space that
completes the pattern. -/
theorem claim_C8_counterexample :
    " = " ∈ WasteItems.skip_patterns ∧
    PyStr.containsStr (PyStr.lower "xy = ") " = " = true ∧
    WasteItems.is_valid_facility_name "xy = " = true := by
  decide

/-- Claim C8 (amended): no string whose stripped form contains a
disqualifying substring (case-insensitively) is ever accepted, regardless
of what other text surrounds the substring. -/
theorem claim_C8_skip_patterns_reject (s p : String)
    (hp : p ∈ WasteItems.skip_patterns)
    (hc : PyStr.containsStr (PyStr.lower (PyStr.strip s)) p = true) :
    WasteItems.is_valid_facility_name s = false := by
  by_cases h1 : (PyStr.strip s = "" ∨ (PyStr.strip s).length < 3)
  · simp [WasteItems.is_valid_facility_name, h1]
  · have hany : WasteItems.skip_patterns.any
        (fun q => PyStr.containsStr (PyStr.lower (PyStr.strip s)) q) = true :=
      List.any_eq_true.mpr ⟨p, hp, hc⟩
    simp [WasteItems.is_valid_facility_name, h1, hany]

/-- Witness for the amended claim C8 at a concrete input. -/
theorem claim_C8_skip_patterns_reject_witness :
    ("hinweis" ∈ WasteItems.skip_patterns ∧
      PyStr.containsStr (PyStr.lower (PyStr.strip "Xanthan Hinweis 123")) "hinweis" = true) ∧
    WasteItems.is_valid_facility_name "Xanthan Hinweis 123" = false :=
  ⟨⟨by decide, by decide⟩,
    claim_C8_skip_patterns_reject "Xanthan Hinweis 123" "hinweis" (by decide) (by decide)⟩

/-! ### Claims C10 and C5: shape of the parser and splitter output -/

namespace WasteItems

theorem keepValid_fold_mem :
    ∀ (names : List String) (acc : List String) (x : String),
      x ∈ names.foldl keepValid acc →
        x ∈ acc ∨ ∃ n, is_valid_facility_name n = true ∧ x = normalize_facility_name n := by
  intro names
  induction names with
  | nil => intro acc x hx; exact Or.inl hx
  | cons n t ih =>
    intro acc x hx
    rcases ih (keepValid acc n) x hx with h | h
    · unfold keepValid at h
      split at h
      · rcases List.mem_append.mp h with h2 | h2
        · exact Or.inl h2
        · refine Or.inr ⟨n, ?_, List.mem_singleton.mp h2⟩
          assumption
      · exact Or.inl h
    · exact Or.inr h

theorem processPart_mem (noNL : Bool) (acc : List String) (partRaw x : String)
    (hx : x ∈ processPart noNL acc partRaw) :
    x ∈ acc ∨ ∃ n, is_valid_facility_name n = true ∧ x = normalize_facility_name n := by
  simp only [processPart] at hx
  split at hx
  · exact Or.inl hx
  · split at hx
    · exact keepValid_fold_mem _ acc x hx
    · split at hx
      · rcases List.mem_append.mp hx with h2 | h2
        · exact Or.inl h2
        · refine Or.inr ⟨PyStr.strip partRaw, ?_, List.mem_singleton.mp h2⟩
          assumption
      · exact keepValid_fold_mem _ acc x hx

theorem parts_fold_mem :
    ∀ (parts : List String) (noNL : Bool) (acc : List String) (x : String),
      x ∈ parts.foldl (processPart noNL) acc →
        x ∈ acc ∨ ∃ n, is_valid_facility_name n = true ∧ x = normalize_facility_name n := by
  intro parts
  induction parts with
  | nil => intro _ acc x hx; exact Or.inl hx
  | cons p t ih =>
    intro noNL acc x hx
    rcases ih noNL (processPart noNL acc p) x hx with h | h
    · exact processPart_mem noNL acc p x h
    · exact Or.inr h

theorem dedupFirstAux_sub :
    ∀ (l seen : List String) (x : String), x ∈ dedupFirstAux seen l → x ∈ l := by
  intro l
  induction l with
  | nil => intro seen x hx; simp [dedupFirstAux] at hx
  | cons a t ih =>
    intro seen x hx
    unfold dedupFirstAux at hx
    split at hx
    · exact List.mem_cons_of_mem _ (ih seen x hx)
    · rcases List.mem_cons.mp hx with h | h
      · exact h ▸ List.mem_cons_self _ _
      · exact List.mem_cons_of_mem _ (ih (a :: seen) x h)

end WasteItems

/-- Claim C10: every name emitted by `parse_disposal_targets` passes the
validity filter and is a fixed point of `normalize_facility_name` — the
parser never returns a name the filter would reject or the normalizer
would still rewrite. -/
theorem claim_C10_parser_output_canonical (cell x : String)
    (hx : x ∈ WasteItems.parse_disposal_targets cell) :
    WasteItems.is_valid_facility_name x = true ∧
    WasteItems.normalize_facility_name x = x := by
  simp only [WasteItems.parse_disposal_targets] at hx
  split at hx
  · simp at hx
  · have h1 := WasteItems.dedupFirstAux_sub _ [] x hx
    rcases WasteItems.parts_fold_mem _ _ [] x h1 with h2 | ⟨n, hn, rfl⟩
    · simp at h2
    · exact ⟨WasteItems.valid_normalize hn, WasteItems.normalize_idem n⟩

/-- Witness for claim C10 at a concrete cell. -/
theorem claim_C10_parser_output_canonical_witness :
    ("Biotonne" ∈ WasteItems.parse_disposal_targets "Biotonne") ∧
    (WasteItems.is_valid_facility_name "Biotonne" = true ∧
      WasteItems.normalize_facility_name "Biotonne" = "Biotonne") :=
  ⟨by decide, claim_C10_parser_output_canonical "Biotonne" "Biotonne" (by decide)⟩

/-! ### Claim C5: the splitter normalizes its matches -/

/-- Claim C5 counterexample: on the input `"Abfallumladeanlage FES"` the
splitter returns `["FES-Abfallumladeanlage"]`, and that element is not
the matched text as it occurred in the input (it does not even occur as a
substring of the input): the splitter applies `normalize_facility_name`
to every match before returning it. -/
theorem claim_C5_counterexample :
    WasteItems.extract_facilities_from_concat "Abfallumladeanlage FES"
      = ["FES-Abfallumladeanlage"] ∧
    PyStr.containsStr "Abfallumladeanlage FES" "FES-Abfallumladeanlage" = false := by
  decide

namespace WasteItems

theorem ciMatch_of_isPrefixCI :
    ∀ (pat s : List Char), isPrefixCI pat s = true →
      ciMatch pat (s.take pat.length) = true := by
  intro pat
  induction pat with
  | nil => intro s _; rfl
  | cons p ps ih =>
    intro s h
    cases s with
    | nil => simp [isPrefixCI] at h
    | cons c cs =>
      simp only [isPrefixCI, Bool.and_eq_true] at h
      simp only [List.length_cons, List.take_succ_cons, ciMatch, Bool.and_eq_true]
      exact ⟨h.1, ih cs h.2⟩

theorem findAllCIFuel_mem :
    ∀ (fuel : Nat) (pat text m : List Char),
      m ∈ findAllCIFuel pat fuel text → ciMatch pat m = true := by
  intro fuel
  induction fuel with
  | zero => intro pat text m hm; simp [findAllCIFuel] at hm
  | succ fuel ih =>
    intro pat text m hm
    cases text with
    | nil => simp [findAllCIFuel] at hm
    | cons c t =>
      unfold findAllCIFuel at hm
      split at hm
      · rename_i hcond
        rw [Bool.and_eq_true] at hcond
        rcases List.mem_cons.mp hm with h | h
        · subst h
          exact ciMatch_of_isPrefixCI pat (c :: t) hcond.2
        · exact ih pat _ m h
      · exact ih pat t m hm

theorem extractStepMatch_fold_mem :
    ∀ (ms : List (List Char)) (acc : List String × List Char) (x : String),
      x ∈ (ms.foldl extractStepMatch acc).1 →
        x ∈ acc.1 ∨ ∃ m ∈ ms, x = normalize_facility_name ⟨m⟩ := by
  intro ms
  induction ms with
  | nil => intro acc x hx; exact Or.inl hx
  | cons m t ih =>
    intro acc x hx
    rcases ih (extractStepMatch acc m) x hx with h | ⟨m', hm', he⟩
    · rcases List.mem_append.mp h with h2 | h2
      · exact Or.inl h2
      · exact Or.inr ⟨m, List.mem_cons_self _ _, List.mem_singleton.mp h2⟩
    · exact Or.inr ⟨m', List.mem_cons_of_mem _ hm', he⟩

theorem extractPattern_fold_mem :
    ∀ (pats : List String) (acc : List String × List Char) (x : String),
      x ∈ (pats.foldl extractPattern acc).1 →
        x ∈ acc.1 ∨ ∃ p ∈ pats, ∃ m : List Char,
          ciMatch p.data m = true ∧ x = normalize_facility_name ⟨m⟩ := by
  intro pats
  induction pats with
  | nil => intro acc x hx; exact Or.inl hx
  | cons p t ih =>
    intro acc x hx
    rcases ih (extractPattern acc p) x hx with h | ⟨p', hp', m, hm, he⟩
    · rcases extractStepMatch_fold_mem _ acc x h with h2 | ⟨m, hm, he⟩
      · exact Or.inl h2
      · exact Or.inr ⟨p, List.mem_cons_self _ _, m,
          findAllCIFuel_mem _ p.data acc.2 m hm, he⟩
    · exact Or.inr ⟨p', List.mem_cons_of_mem _ hp', m, hm, he⟩

end WasteItems

/-- Claim C5 (amended): every element returned by
`extract_facilities_from_concat` is the `normalize_facility_name` image
of a case-insensitive occurrence of one of the known patterns — the list
of matches is returned post-normalization, not pre-normalization. -/
theorem claim_C5_splitter_normalizes (text x : String)
    (hx : x ∈ WasteItems.extract_facilities_from_concat text) :
    ∃ p ∈ WasteItems.known_patterns, ∃ m : List Char,
      WasteItems.ciMatch p.data m = true ∧
      x = WasteItems.normalize_facility_name ⟨m⟩ := by
  rcases WasteItems.extractPattern_fold_mem WasteItems.known_patterns
      ([], text.data) x hx with h | h
  · simp at h
  · exact h

/-- Witness for the amended claim C5 at a concrete input. -/
theorem claim_C5_splitter_normalizes_witness :
    ("Biotonne" ∈ WasteItems.extract_facilities_from_concat "Biotonne") ∧
    (∃ p ∈ WasteItems.known_patterns, ∃ m : List Char,
      WasteItems.ciMatch p.data m = true ∧
      ("Biotonne" : String) = WasteItems.normalize_facility_name ⟨m⟩) :=
  ⟨by decide, claim_C5_splitter_normalizes "Biotonne" "Biotonne" (by decide)⟩

/-! ### Claim C3: non-empty facility fields are never overwritten by empty values -/

/-- Claim C3: when a record is re-imported for a facility already in the
store (matched by uid), every stored field whose incoming value is empty
keeps its stored value (the updated node is the one placed in the store
by the `MERGE` step); and the in-memory dedupe-by-name merge of
`load_facilities` likewise never overwrites a non-empty existing field. -/
theorem claim_C3_nonempty_preserved
    (fs : List Facilities.Facility) (r : Facilities.FacRecord)
    (f : Facilities.Facility) (ex inc : Facilities.FacRecord)
    (hf : f ∈ fs) (hu : f.uid = Facilities.uidOf r) :
    (Facilities.applyRec r f ∈ Facilities.stepFacility fs r ∧
      (f.address ≠ "" → r.address = "" → (Facilities.applyRec r f).address = f.address) ∧
      (f.opening_hours ≠ "" → r.opening_hours = "" →
        (Facilities.applyRec r f).opening_hours = f.opening_hours) ∧
      (f.contact ≠ "" → r.contact = "" → (Facilities.applyRec r f).contact = f.contact) ∧
      (f.additional_info ≠ "" → r.additional_info = "" →
        (Facilities.applyRec r f).additional_info = f.additional_info) ∧
      (f.link ≠ "" → r.link = "" → (Facilities.applyRec r f).link = f.link)) ∧
    ((ex.address ≠ "" → (Facilities.mergeRecord ex inc).address = ex.address) ∧
      (ex.opening_hours ≠ "" →
        (Facilities.mergeRecord ex inc).opening_hours = ex.opening_hours) ∧
      (ex.contact ≠ "" → (Facilities.mergeRecord ex inc).contact = ex.contact) ∧
      (ex.additional_info ≠ "" →
        (Facilities.mergeRecord ex inc).additional_info = ex.additional_info) ∧
      (ex.link ≠ "" → (Facilities.mergeRecord ex inc).link = ex.link)) := by
  constructor
  · constructor
    · have hany : fs.any (fun g => g.uid == Facilities.uidOf r) = true :=
        List.any_eq_true.mpr ⟨f, hf, by simp [hu]⟩
      simp only [Facilities.stepFacility, hany, if_true]
      refine List.mem_map.mpr ⟨f, hf, ?_⟩
      simp [Facilities.matchUpd, hu]
    · refine ⟨?_, ?_, ?_, ?_, ?_⟩ <;> intro _ hr <;> simp [Facilities.applyRec, hr]
  · refine ⟨?_, ?_, ?_, ?_, ?_⟩ <;> intro hne <;> simp [Facilities.mergeRecord, hne]

/-- Witness for claim C3 at a concrete store and record. -/
theorem claim_C3_nonempty_preserved_witness :
    ((⟨Facilities.uidOf ⟨"Nordhof", "", "", "", "", ""⟩,
        "Nordhof", "Street 1", "9-17", "tel 1", "note", "http"⟩ : Facilities.Facility)
        ∈ [(⟨Facilities.uidOf ⟨"Nordhof", "", "", "", "", ""⟩,
        "Nordhof", "Street 1", "9-17", "tel 1", "note", "http"⟩ : Facilities.Facility)] ∧
      (⟨Facilities.uidOf ⟨"Nordhof", "", "", "", "", ""⟩,
        "Nordhof", "Street 1", "9-17", "tel 1", "note", "http"⟩ : Facilities.Facility).uid
        = Facilities.uidOf ⟨"Nordhof", "", "", "", "", ""⟩) ∧
    ((Facilities.applyRec ⟨"Nordhof", "", "", "", "", ""⟩
        ⟨Facilities.uidOf ⟨"Nordhof", "", "", "", "", ""⟩,
          "Nordhof", "Street 1", "9-17", "tel 1", "note", "http"⟩).address = "Street 1" ∧
      (Facilities.mergeRecord ⟨"Nordhof", "Street 1", "", "", "", ""⟩
        ⟨"Nordhof", "Street 9", "", "", "", ""⟩).address = "Street 1") :=
  ⟨⟨List.mem_singleton.mpr rfl, rfl⟩,
    (claim_C3_nonempty_preserved _ ⟨"Nordhof", "", "", "", "", ""⟩ _
      ⟨"Nordhof", "Street 1", "", "", "", ""⟩ ⟨"Nordhof", "Street 9", "", "", "", ""⟩
      (List.mem_singleton.mpr rfl) rfl).1.2.1 (by decide) rfl,
    (claim_C3_nonempty_preserved
      [(⟨Facilities.uidOf ⟨"Nordhof", "", "", "", "", ""⟩,
        "Nordhof", "Street 1", "9-17", "tel 1", "note", "http"⟩ : Facilities.Facility)]
      ⟨"Nordhof", "", "", "", "", ""⟩
      ⟨Facilities.uidOf ⟨"Nordhof", "", "", "", "", ""⟩,
        "Nordhof", "Street 1", "9-17", "tel 1", "note", "http"⟩
      ⟨"Nordhof", "Street 1", "", "", "", ""⟩ ⟨"Nordhof", "Street 9", "", "", "", ""⟩
      (List.mem_singleton.mpr rfl) rfl).2.1 (by decide)⟩

/-! ### Claim C2: unmatched facility targets warn and do not write -/

namespace WasteItems

theorem classify_snd (t : String) (ex : List String) :
    (classify_target t ex).2 = t := by
  rw [classify_eq]
  split <;> rfl

theorem mergeWasteItem_facilities (n u : String) (S : Store) :
    (mergeWasteItem n u S).facilities = S.facilities := by
  unfold mergeWasteItem
  split <;> rfl

theorem processTarget_facilities (n : String) (ex : List String)
    (acc : Store × ImportStats) (t : String) :
    ((processTarget n ex acc t).1).facilities = acc.1.facilities := by
  simp only [processTarget]
  split
  · split
    · rfl
    · rfl
  · split
    · rfl
    · rfl

theorem targets_fold_facilities (n : String) (ex : List String) :
    ∀ (ts : List String) (acc : Store × ImportStats),
      ((ts.foldl (processTarget n ex) acc).1).facilities = acc.1.facilities := by
  intro ts
  induction ts with
  | nil => intro acc; rfl
  | cons t ts ih =>
    intro acc
    rw [List.foldl_cons, ih, processTarget_facilities]

theorem processItem_facilities (ex : List String) (acc : Store × ImportStats)
    (row : WasteItemRow) :
    ((processItem ex acc row).1).facilities = acc.1.facilities := by
  unfold processItem
  rw [targets_fold_facilities]
  exact mergeWasteItem_facilities _ _ _

theorem rows_fold_facilities (ex : List String) :
    ∀ (rows : List WasteItemRow) (acc : Store × ImportStats),
      ((rows.foldl (processItem ex) acc).1).facilities = acc.1.facilities := by
  intro rows
  induction rows with
  | nil => intro acc; rfl
  | cons r rs ih =>
    intro acc
    rw [List.foldl_cons, ih, processItem_facilities]

/-- A store and a stats record used as concrete witnesses. -/
def emptyStore : Store := ⟨[], [], [], [], []⟩

def zeroStats : ImportStats := ⟨0, 0, 0, 0, 0, false, []⟩

end WasteItems

/-- Claim C2: a target classified as a facility whose name is not an
existing Facility node causes no store write at all (in particular no
`DISPOSED_AT` pair and no Facility node), is recorded as a warning, and
processing continues with the remaining targets from the unchanged store;
moreover the waste-item import never changes the Facility node collection
of the store. -/
theorem claim_C2_unmatched_facility (S : WasteItems.Store)
    (st : WasteItems.ImportStats) (item_name target : String)
    (rest : List String) (existing : List String)
    (hc : (WasteItems.classify_target target existing).1 = "facility")
    (hnf : target ∉ WasteItems.facilityNames S) :
    ((target :: rest).foldl (WasteItems.processTarget item_name existing) (S, st)
      = rest.foldl (WasteItems.processTarget item_name existing)
          (S, { st with
            warnings := st.warnings ++ ["Could not link to facility: " ++ target] })) ∧
    (∀ (rows : List WasteItems.WasteItemRow) (S₀ : WasteItems.Store)
        (st₀ : WasteItems.ImportStats),
      ((rows.foldl (WasteItems.processItem existing) (S₀, st₀)).1).facilities
        = S₀.facilities) := by
  constructor
  · rw [List.foldl_cons]
    congr 1
    have h2 : (WasteItems.classify_target target existing).2 = target :=
      WasteItems.classify_snd target existing
    simp only [WasteItems.processTarget]
    rw [hc, h2]
    simp [hnf]
  · intro rows S₀ st₀
    exact WasteItems.rows_fold_facilities existing rows (S₀, st₀)

/-- Witness for claim C2 at a concrete store and target. -/
theorem claim_C2_unmatched_facility_witness :
    ((WasteItems.classify_target "Wertstoffhof Nord" []).1 = "facility" ∧
      "Wertstoffhof Nord" ∉ WasteItems.facilityNames WasteItems.emptyStore) ∧
    (["Wertstoffhof Nord"].foldl (WasteItems.processTarget "Altöl" [])
        (WasteItems.emptyStore, WasteItems.zeroStats)
      = ([] : List String).foldl (WasteItems.processTarget "Altöl" [])
          (WasteItems.emptyStore, { WasteItems.zeroStats with
            warnings := WasteItems.zeroStats.warnings
              ++ ["Could not link to facility: " ++ "Wertstoffhof Nord"] })) ∧
    ((([⟨"Altöl", ["Wertstoffhof Nord"]⟩] : List WasteItems.WasteItemRow).foldl
        (WasteItems.processItem []) (WasteItems.emptyStore, WasteItems.zeroStats)).1).facilities
      = WasteItems.emptyStore.facilities :=
  ⟨⟨rfl, by decide⟩,
    (claim_C2_unmatched_facility WasteItems.emptyStore WasteItems.zeroStats
      "Altöl" "Wertstoffhof Nord" [] [] rfl (by decide)).1,
    (claim_C2_unmatched_facility WasteItems.emptyStore WasteItems.zeroStats
      "Altöl" "Wertstoffhof Nord" [] [] rfl (by decide)).2
      [⟨"Altöl", ["Wertstoffhof Nord"]⟩] WasteItems.emptyStore WasteItems.zeroStats⟩

/-! ### Claim C4: dry-run issues no store writes -/

namespace WasteItems

theorem dryStep_fold_fst (ex : List String) :
    ∀ (ts : List String) (acc : Finset String × Finset String),
      (ts.foldl (dryStep ex) acc).1
        = acc.1 ∪ (ts.filter (fun t => (classify_target t ex).1 == "stream")).toFinset := by
  intro ts
  induction ts with
  | nil => intro acc; simp
  | cons t ts ih =>
    intro acc
    rw [List.foldl_cons]
    by_cases h : (classify_target t ex).1 = "stream"
    · have hb : ((classify_target t ex).1 == "stream") = true := by simp [h]
      have hstep : (dryStep ex acc t) = (insert t acc.1, acc.2) := by
        simp only [dryStep]
        rw [if_pos h, classify_snd]
      rw [ih, hstep,
        @List.filter_cons_of_pos String (fun t => (classify_target t ex).1 == "stream") t ts hb,
        List.toFinset_cons, Finset.insert_union, Finset.union_insert]
    · have hb : ¬((classify_target t ex).1 == "stream") = true := by simp [h]
      have hstep : (dryStep ex acc t).1 = acc.1 := by
        simp only [dryStep]
        rw [if_neg h]
        split <;> rfl
      rw [ih, hstep,
        @List.filter_cons_of_neg String (fun t => (classify_target t ex).1 == "stream") t ts hb]

theorem dryItem_fold_fst (ex : List String) :
    ∀ (rows : List WasteItemRow) (acc : Finset String × Finset String),
      (rows.foldl (dryItem ex) acc).1
        = acc.1 ∪ (((rows.map (fun r => r.disposal_targets)).flatten).filter
            (fun t => (classify_target t ex).1 == "stream")).toFinset := by
  intro rows
  induction rows with
  | nil => intro acc; simp
  | cons r rs ih =>
    intro acc
    rw [List.foldl_cons, ih]
    show (dryItem ex acc r).1 ∪ _ = _
    rw [dryItem, dryStep_fold_fst]
    rw [List.map_cons, List.flatten_cons, List.filter_append, List.toFinset_append,
      Finset.union_assoc]

end WasteItems

/-- Claim C4: with `dry_run=True` the import performs the parsing and
classification scan but issues no store writes: the store is returned
unchanged, the statistics dict carries the dry-run flag with zero
created/changed counts, and it reports what would change
(`items_loaded`, and `streams_needed` = the number of distinct
stream-classified targets in the catalog). -/
theorem claim_C4_dry_run_pure (rows : List WasteItems.WasteItemRow)
    (S : WasteItems.Store) :
    (WasteItems.import_waste_items rows true S).1 = S ∧
    (WasteItems.import_waste_items rows true S).2.dry_run = true ∧
    (WasteItems.import_waste_items rows true S).2.items_created = 0 ∧
    (WasteItems.import_waste_items rows true S).2.relationships_created = 0 ∧
    (WasteItems.import_waste_items rows true S).2.items_loaded = rows.length ∧
    (WasteItems.import_waste_items rows true S).2.streams_needed
      = (((rows.map (fun r => r.disposal_targets)).flatten).filter
          (fun t => (WasteItems.classify_target t (WasteItems.facilityNames S)).1
            == "stream")).toFinset.card := by
  refine ⟨rfl, rfl, rfl, rfl, rfl, ?_⟩
  show (WasteItems.dryRunScan (WasteItems.facilityNames S) rows).1.card = _
  rw [WasteItems.dryRunScan, WasteItems.dryItem_fold_fst]
  simp

/-! ### Claim C1: idempotence of the imports

First the waste-item import.  The proof goes through a coverage
invariant: after one run every row's nodes and relationships are present
in the store, and a run over a store that already covers every row is the
identity on the store (every `MERGE` finds its target). -/

namespace WasteItems

/-- Membership-monotonicity order on stores: everything present stays
present, and the Facility collection is unchanged (the waste-item import
never writes it). -/
def storeLE (S T : Store) : Prop :=
  (∀ x, x ∈ itemNames S → x ∈ itemNames T) ∧
  (∀ x, x ∈ streamNames S → x ∈ streamNames T) ∧
  (∀ pr : String × String, pr ∈ S.disposedIn → pr ∈ T.disposedIn) ∧
  (∀ pr : String × String, pr ∈ S.disposedAt → pr ∈ T.disposedAt) ∧
  T.facilities = S.facilities

theorem storeLE_refl (S : Store) : storeLE S S :=
  ⟨fun _ h => h, fun _ h => h, fun _ h => h, fun _ h => h, rfl⟩

theorem storeLE_trans {S T U : Store} (h1 : storeLE S T) (h2 : storeLE T U) :
    storeLE S U :=
  ⟨fun x h => h2.1 x (h1.1 x h), fun x h => h2.2.1 x (h1.2.1 x h),
   fun p h => h2.2.2.1 p (h1.2.2.1 p h), fun p h => h2.2.2.2.1 p (h1.2.2.2.1 p h),
   h2.2.2.2.2.trans h1.2.2.2.2⟩

theorem facilityNames_eq_of_le {S T : Store} (h : storeLE S T) :
    facilityNames T = facilityNames S := by
  unfold facilityNames
  rw [h.2.2.2.2]

theorem mergeWasteItem_le (n u : String) (S : Store) :
    storeLE S (mergeWasteItem n u S) := by
  unfold mergeWasteItem
  split
  · exact storeLE_refl S
  · refine ⟨?_, fun _ h => h, fun _ h => h, fun _ h => h, rfl⟩
    intro x hx
    simp only [itemNames, List.map_append] at *
    exact List.mem_append_left _ hx

theorem mergeWasteItem_mem (n u : String) (S : Store) :
    n ∈ itemNames (mergeWasteItem n u S) := by
  unfold mergeWasteItem
  split
  next h => exact h
  next => simp [itemNames]

theorem addIfAbsent_mem {y : String × String} (x : String × String)
    (l : List (String × String)) (h : y ∈ l) : y ∈ addIfAbsent x l := by
  unfold addIfAbsent
  split
  · exact h
  · exact List.mem_append_left _ h

theorem addIfAbsent_self (x : String × String) (l : List (String × String)) :
    x ∈ addIfAbsent x l := by
  unfold addIfAbsent
  split
  next h => exact h
  next => simp

theorem addIfAbsent_of_mem {x : String × String} {l : List (String × String)}
    (h : x ∈ l) : addIfAbsent x l = l := by
  unfold addIfAbsent
  rw [if_pos h]

theorem processTarget_le (n : String) (ex : List String)
    (acc : Store × ImportStats) (t : String) :
    storeLE acc.1 ((processTarget n ex acc t).1) := by
  simp only [processTarget]
  split
  · split
    · refine ⟨fun x h => h, ?_, ?_, fun p h => h, rfl⟩
      · intro x hx
        simp only [streamNames] at *
        split
        · exact hx
        · simp only [List.map_append]
          exact List.mem_append_left _ hx
      · intro p hp
        exact addIfAbsent_mem _ _ hp
    · exact storeLE_refl _
  · split
    · refine ⟨fun x h => h, fun x h => h, fun p h => h, ?_, rfl⟩
      intro p hp
      exact addIfAbsent_mem _ _ hp
    · exact storeLE_refl _

theorem targets_fold_le (n : String) (ex : List String) :
    ∀ (ts : List String) (acc : Store × ImportStats),
      storeLE acc.1 ((ts.foldl (processTarget n ex) acc).1) := by
  intro ts
  induction ts with
  | nil => intro acc; exact storeLE_refl _
  | cons t ts ih =>
    intro acc
    rw [List.foldl_cons]
    exact storeLE_trans (processTarget_le n ex acc t) (ih _)

theorem processItem_le (ex : List String) (acc : Store × ImportStats)
    (row : WasteItemRow) : storeLE acc.1 ((processItem ex acc row).1) := by
  simp only [processItem]
  exact storeLE_trans (mergeWasteItem_le row.name (generate_uid row.name) acc.1)
    (targets_fold_le row.name ex row.disposal_targets
      (mergeWasteItem row.name (generate_uid row.name) acc.1,
        { acc.2 with items_created := acc.2.items_created + 1 }))

theorem rows_fold_le (ex : List String) :
    ∀ (rows : List WasteItemRow) (acc : Store × ImportStats),
      storeLE acc.1 ((rows.foldl (processItem ex) acc).1) := by
  intro rows
  induction rows with
  | nil => intro acc; exact storeLE_refl _
  | cons r rs ih =>
    intro acc
    rw [List.foldl_cons]
    exact storeLE_trans (processItem_le ex acc r) (ih _)

/-- The facts a store must hold for one row's targets so that re-running
the merge queries for that row changes nothing. -/
def coversTargets (S : Store) (n : String) (ts : List String) : Prop :=
  ∀ t ∈ ts,
    (t ∈ WASTE_STREAMS → t ∈ streamNames S ∧ (n, t) ∈ S.disposedIn) ∧
    (t ∉ WASTE_STREAMS → t ∈ facilityNames S → (n, t) ∈ S.disposedAt)

def coversRow (S : Store) (row : WasteItemRow) : Prop :=
  row.name ∈ itemNames S ∧ coversTargets S row.name row.disposal_targets

theorem coversTargets_mono {S T : Store} {n : String} {ts : List String}
    (hle : storeLE S T) (h : coversTargets S n ts) : coversTargets T n ts := by
  intro t ht
  refine ⟨?_, ?_⟩
  · intro hw
    obtain ⟨h1, h2⟩ := (h t ht).1 hw
    exact ⟨hle.2.1 t h1, hle.2.2.1 _ h2⟩
  · intro hw hf
    rw [facilityNames_eq_of_le hle] at hf
    exact hle.2.2.2.1 _ ((h t ht).2 hw hf)

theorem coversRow_mono {S T : Store} {row : WasteItemRow}
    (hle : storeLE S T) (h : coversRow S row) : coversRow T row :=
  ⟨hle.1 _ h.1, coversTargets_mono hle h.2⟩

theorem processTarget_facilityNames (n : String) (ex : List String)
    (acc : Store × ImportStats) (t : String) :
    facilityNames ((processTarget n ex acc t).1) = facilityNames acc.1 := by
  unfold facilityNames
  rw [processTarget_facilities]

theorem processTarget_stream_store (n : String) (ex : List String)
    (acc : Store × ImportStats) (t : String)
    (hw : t ∈ WASTE_STREAMS) (hn : n ∈ itemNames acc.1) :
    (processTarget n ex acc t).1 =
      { acc.1 with
        wasteStreams :=
          if t ∈ streamNames acc.1 then acc.1.wasteStreams
          else acc.1.wasteStreams ++ [(t, generate_uid t)],
        disposedIn := addIfAbsent (n, t) acc.1.disposedIn } := by
  have hcl : classify_target t ex = ("stream", t) := by
    rw [classify_eq, if_pos hw]
  simp only [processTarget, hcl, ite_true]
  rw [if_pos hn]

theorem processTarget_facility_store_pos (n : String) (ex : List String)
    (acc : Store × ImportStats) (t : String)
    (hw : t ∉ WASTE_STREAMS) (hn : n ∈ itemNames acc.1)
    (hf : t ∈ facilityNames acc.1) :
    (processTarget n ex acc t).1 =
      { acc.1 with disposedAt := addIfAbsent (n, t) acc.1.disposedAt } := by
  have hcl : classify_target t ex = ("facility", t) := by
    rw [classify_eq, if_neg hw]
  simp only [processTarget, hcl]
  rw [if_neg (show ¬(("facility" : String) = "stream") from by decide), if_pos ⟨hn, hf⟩]

theorem processTarget_facility_store_neg (n : String) (ex : List String)
    (acc : Store × ImportStats) (t : String)
    (hw : t ∉ WASTE_STREAMS) (hnf : ¬(n ∈ itemNames acc.1 ∧ t ∈ facilityNames acc.1)) :
    (processTarget n ex acc t).1 = acc.1 := by
  have hcl : classify_target t ex = ("facility", t) := by
    rw [classify_eq, if_neg hw]
  simp only [processTarget, hcl]
  rw [if_neg (show ¬(("facility" : String) = "stream") from by decide), if_neg hnf]

theorem processTarget_covers (n : String) (ex : List String)
    (acc : Store × ImportStats) (t : String) (hn : n ∈ itemNames acc.1) :
    (t ∈ WASTE_STREAMS → t ∈ streamNames ((processTarget n ex acc t).1) ∧
      (n, t) ∈ ((processTarget n ex acc t).1).disposedIn) ∧
    (t ∉ WASTE_STREAMS → t ∈ facilityNames ((processTarget n ex acc t).1) →
      (n, t) ∈ ((processTarget n ex acc t).1).disposedAt) := by
  constructor
  · intro hw
    rw [processTarget_stream_store n ex acc t hw hn]
    constructor
    · show t ∈ List.map Prod.fst (if t ∈ streamNames acc.1 then acc.1.wasteStreams
        else acc.1.wasteStreams ++ [(t, generate_uid t)])
      split
      next h => exact h
      next =>
        have : (t, generate_uid t) ∈ acc.1.wasteStreams ++ [(t, generate_uid t)] :=
          List.mem_append_right _ (List.mem_singleton.mpr rfl)
        exact List.mem_map_of_mem Prod.fst this
    · exact addIfAbsent_self _ _
  · intro hw
    rw [processTarget_facilityNames]
    intro hf
    rw [processTarget_facility_store_pos n ex acc t hw hn hf]
    exact addIfAbsent_self _ _

theorem targets_fold_covers (n : String) (ex : List String) :
    ∀ (ts : List String) (acc : Store × ImportStats),
      n ∈ itemNames acc.1 →
      coversTargets ((ts.foldl (processTarget n ex) acc).1) n ts := by
  intro ts
  induction ts with
  | nil => intro acc _ t ht; exact absurd ht (List.not_mem_nil t)
  | cons t ts ih =>
    intro acc hn t' ht'
    rw [List.foldl_cons]
    rcases List.mem_cons.mp ht' with rfl | hmem
    · have hstep := processTarget_covers n ex acc t' hn
      have hle := targets_fold_le n ex ts (processTarget n ex acc t')
      constructor
      · intro hw
        obtain ⟨h1, h2⟩ := hstep.1 hw
        exact ⟨hle.2.1 _ h1, hle.2.2.1 _ h2⟩
      · intro hw hf
        rw [facilityNames_eq_of_le hle] at hf
        exact hle.2.2.2.1 _ (hstep.2 hw hf)
    · exact ih (processTarget n ex acc t)
        ((processTarget_le n ex acc t).1 n hn) t' hmem

theorem processItem_covers (ex : List String) (acc : Store × ImportStats)
    (row : WasteItemRow) : coversRow ((processItem ex acc row).1) row := by
  unfold processItem
  constructor
  · exact (targets_fold_le _ _ _ _).1 _ (mergeWasteItem_mem _ _ _)
  · exact targets_fold_covers row.name ex row.disposal_targets _
      (mergeWasteItem_mem _ _ _)

theorem rows_fold_covers (ex : List String) :
    ∀ (rows : List WasteItemRow) (acc : Store × ImportStats),
      ∀ row ∈ rows, coversRow ((rows.foldl (processItem ex) acc).1) row := by
  intro rows
  induction rows with
  | nil => intro acc row h; exact absurd h (List.not_mem_nil row)
  | cons r rs ih =>
    intro acc row hrow
    rw [List.foldl_cons]
    rcases List.mem_cons.mp hrow with rfl | hmem
    · exact coversRow_mono (rows_fold_le ex rs _) (processItem_covers ex acc row)
    · exact ih (processItem ex acc r) row hmem

theorem processTarget_id (n : String) (ex : List String) (S : Store)
    (st : ImportStats) (t : String) (hn : n ∈ itemNames S)
    (hcov : (t ∈ WASTE_STREAMS → t ∈ streamNames S ∧ (n, t) ∈ S.disposedIn) ∧
      (t ∉ WASTE_STREAMS → t ∈ facilityNames S → (n, t) ∈ S.disposedAt)) :
    (processTarget n ex (S, st) t).1 = S := by
  by_cases hw : t ∈ WASTE_STREAMS
  · obtain ⟨h1, h2⟩ := hcov.1 hw
    rw [processTarget_stream_store n ex (S, st) t hw hn]
    show ({ S with
        wasteStreams := if t ∈ streamNames S then S.wasteStreams
          else S.wasteStreams ++ [(t, generate_uid t)],
        disposedIn := addIfAbsent (n, t) S.disposedIn } : Store) = S
    rw [if_pos h1, addIfAbsent_of_mem h2]
  · by_cases hf : t ∈ facilityNames S
    · rw [processTarget_facility_store_pos n ex (S, st) t hw hn hf]
      show ({ S with disposedAt := addIfAbsent (n, t) S.disposedAt } : Store) = S
      rw [addIfAbsent_of_mem (hcov.2 hw hf)]
    · exact processTarget_facility_store_neg n ex (S, st) t hw (by simp [hf])

theorem targets_fold_id (n : String) (ex : List String) :
    ∀ (ts : List String) (S : Store) (st : ImportStats),
      n ∈ itemNames S → coversTargets S n ts →
      ((ts.foldl (processTarget n ex) (S, st)).1) = S := by
  intro ts
  induction ts with
  | nil => intro S st _ _; rfl
  | cons t ts ih =>
    intro S st hn hcov
    rw [List.foldl_cons]
    rcases hpt : processTarget n ex (S, st) t with ⟨S', st'⟩
    have h1 : S' = S := by
      have h0 := processTarget_id n ex S st t hn (hcov t (List.mem_cons_self t ts))
      rw [hpt] at h0
      exact h0
    subst h1
    exact ih S' st' hn (fun t' ht' => hcov t' (List.mem_cons_of_mem t ht'))

theorem processItem_id (ex : List String) (S : Store) (st : ImportStats)
    (row : WasteItemRow) (hcov : coversRow S row) :
    (processItem ex (S, st) row).1 = S := by
  have hm : mergeWasteItem row.name (generate_uid row.name) S = S := by
    unfold mergeWasteItem
    rw [if_pos hcov.1]
  simp only [processItem]
  rw [hm]
  exact targets_fold_id row.name ex row.disposal_targets S _ hcov.1 hcov.2

theorem rows_fold_id (ex : List String) :
    ∀ (rows : List WasteItemRow) (S : Store) (st : ImportStats),
      (∀ row ∈ rows, coversRow S row) →
      ((rows.foldl (processItem ex) (S, st)).1) = S := by
  intro rows
  induction rows with
  | nil => intro S st _; rfl
  | cons r rs ih =>
    intro S st hcov
    rw [List.foldl_cons]
    rcases hpi : processItem ex (S, st) r with ⟨S', st'⟩
    have h1 : S' = S := by
      have h0 := processItem_id ex S st r (hcov r (List.mem_cons_self r rs))
      rw [hpi] at h0
      exact h0
    subst h1
    exact ih S' st' (fun row h => hcov row (List.mem_cons_of_mem r h))

theorem importStore_eq (rows : List WasteItemRow) (S : Store) :
    importStore rows S
      = (rows.foldl (processItem (facilityNames S))
          (S, ⟨rows.length, 0, 0, 0, 0, false, []⟩)).1 := rfl

/-- Running the live waste-item import twice yields the store of a single
run. -/
theorem importStore_idem (rows : List WasteItemRow) (S : Store) :
    importStore rows (importStore rows S) = importStore rows S := by
  rw [importStore_eq rows (importStore rows S)]
  apply rows_fold_id
  intro row h
  rw [importStore_eq rows S]
  exact rows_fold_covers (facilityNames S) rows _ row h

end WasteItems

/-! Idempotence of the facility import.  The `MERGE` is keyed by uid, so
a second run only re-applies the per-field `ON MATCH` updates.  Each
node's field value after a run is characterized by the last non-empty
incoming value among the records matching its uid, which makes the
re-application a fixed point — even when several records share a uid. -/

namespace Facilities

theorem applyRec_uid (r : FacRecord) (f : Facility) : (applyRec r f).uid = f.uid := rfl

theorem applyRec_name (r : FacRecord) (f : Facility) : (applyRec r f).name = f.name := rfl

theorem matchUpd_uid (f : Facility) (r : FacRecord) : (matchUpd f r).uid = f.uid := by
  unfold matchUpd
  split <;> rfl

theorem matchUpd_name (f : Facility) (r : FacRecord) : (matchUpd f r).name = f.name := by
  unfold matchUpd
  split <;> rfl

theorem foldl_matchUpd_uid :
    ∀ (rs : List FacRecord) (f : Facility), (rs.foldl matchUpd f).uid = f.uid := by
  intro rs
  induction rs with
  | nil => intro f; rfl
  | cons r rs ih => intro f; rw [List.foldl_cons, ih, matchUpd_uid]

theorem foldl_matchUpd_name :
    ∀ (rs : List FacRecord) (f : Facility), (rs.foldl matchUpd f).name = f.name := by
  intro rs
  induction rs with
  | nil => intro f; rfl
  | cons r rs ih => intro f; rw [List.foldl_cons, ih, matchUpd_name]

/-- The per-field update of the `ON MATCH SET` clause. -/
def updS (cur inc : String) : String := if inc ≠ "" then inc else cur

/-- The incoming values of one field from the records whose computed uid
matches `u`, in record order. -/
def incsFor (u : String) (rs : List FacRecord) (ρ : FacRecord → String) : List String :=
  (rs.filter (fun r => u == uidOf r)).map ρ

theorem incsFor_cons_pos {u : String} {r : FacRecord} (rs : List FacRecord)
    (ρ : FacRecord → String) (h : (u == uidOf r) = true) :
    incsFor u (r :: rs) ρ = ρ r :: incsFor u rs ρ := by
  unfold incsFor
  rw [@List.filter_cons_of_pos FacRecord (fun r => u == uidOf r) r rs h, List.map_cons]

theorem incsFor_cons_neg {u : String} {r : FacRecord} (rs : List FacRecord)
    (ρ : FacRecord → String) (h : ¬(u == uidOf r) = true) :
    incsFor u (r :: rs) ρ = incsFor u rs ρ := by
  unfold incsFor
  rw [@List.filter_cons_of_neg FacRecord (fun r => u == uidOf r) r rs h]

theorem foldl_matchUpd_field (π : Facility → String) (ρ : FacRecord → String)
    (hπ : ∀ (r : FacRecord) (f : Facility), π (applyRec r f) = updS (π f) (ρ r)) :
    ∀ (rs : List FacRecord) (f : Facility),
      π (rs.foldl matchUpd f) = (incsFor f.uid rs ρ).foldl updS (π f) := by
  intro rs
  induction rs with
  | nil => intro f; rfl
  | cons r rs ih =>
    intro f
    rw [List.foldl_cons]
    by_cases h : (f.uid == uidOf r) = true
    · rw [incsFor_cons_pos rs ρ h, List.foldl_cons]
      have hm : matchUpd f r = applyRec r f := by
        unfold matchUpd
        rw [if_pos h]
      rw [hm, ih, applyRec_uid, hπ]
    · rw [incsFor_cons_neg rs ρ h]
      have hm : matchUpd f r = f := by
        unfold matchUpd
        rw [if_neg h]
      rw [hm, ih]

/-- The last non-empty value of a field-update sequence. -/
def lastNE (xs : List String) : Option String := xs.reverse.find? (fun x => !(x == ""))

theorem foldl_updS_char :
    ∀ (xs : List String) (v : String), xs.foldl updS v = (lastNE xs).getD v := by
  intro xs
  induction xs with
  | nil => intro v; rfl
  | cons x t ih =>
    intro v
    rw [List.foldl_cons, ih]
    show (lastNE t).getD (updS v x) = (lastNE (x :: t)).getD v
    unfold lastNE
    rw [List.reverse_cons, List.find?_append]
    cases hf : List.find? (fun x => !(x == "")) t.reverse with
    | some w => rfl
    | none =>
      rw [Option.none_or]
      by_cases hx : x = ""
      · subst hx
        simp [List.find?, updS]
      · have hb : (x == "") = false := by simp [hx]
        simp [List.find?, updS, hx, hb]

theorem foldl_updS_idem (xs : List String) (v : String) :
    xs.foldl updS (xs.foldl updS v) = xs.foldl updS v := by
  rw [foldl_updS_char xs v, foldl_updS_char xs]
  cases lastNE xs with
  | some w => rfl
  | none => rfl

theorem updS_self (v : String) : updS v v = v := by
  unfold updS
  split <;> rfl

theorem foldl_updS_absorb (xs : List String) (inc : String) :
    xs.foldl updS (updS (xs.foldl updS inc) inc) = xs.foldl updS inc := by
  rw [foldl_updS_char xs inc, foldl_updS_char xs]
  cases lastNE xs with
  | some w => rfl
  | none =>
    show updS inc inc = inc
    exact updS_self inc

/-- A Facility node with the given uid is present. -/
def uidIn (u : String) (fs : List Facility) : Prop := ∃ f ∈ fs, f.uid = u

theorem uidIn_any {u : String} {fs : List Facility} (h : uidIn u fs) :
    fs.any (fun f => f.uid == u) = true := by
  obtain ⟨f, hf, he⟩ := h
  exact List.any_eq_true.mpr ⟨f, hf, by simp [he]⟩

theorem stepFacility_of_uidIn {fs : List Facility} {r : FacRecord}
    (h : uidIn (uidOf r) fs) :
    stepFacility fs r = fs.map (fun f => matchUpd f r) := by
  unfold stepFacility
  rw [if_pos (uidIn_any h)]

theorem uidIn_map_matchUpd {u : String} {fs : List Facility} {r : FacRecord}
    (h : uidIn u fs) : uidIn u (fs.map (fun f => matchUpd f r)) := by
  obtain ⟨f, hf, he⟩ := h
  exact ⟨matchUpd f r, List.mem_map_of_mem _ hf, by rw [matchUpd_uid]; exact he⟩

theorem uidIn_step {u : String} {fs : List Facility} {r : FacRecord}
    (h : uidIn u fs) : uidIn u (stepFacility fs r) := by
  unfold stepFacility
  split
  · exact uidIn_map_matchUpd h
  · obtain ⟨f, hf, he⟩ := h
    exact ⟨f, List.mem_append_left _ hf, he⟩

theorem uidIn_step_self (fs : List Facility) (r : FacRecord) :
    uidIn (uidOf r) (stepFacility fs r) := by
  unfold stepFacility
  split
  next h =>
    obtain ⟨f, hf, hb⟩ := List.any_eq_true.mp h
    exact ⟨matchUpd f r, List.mem_map_of_mem _ hf, by rw [matchUpd_uid]; exact eq_of_beq hb⟩
  next => exact ⟨newFacility r, List.mem_append_right _ (List.mem_singleton.mpr rfl), rfl⟩

theorem uidIn_run {u : String} :
    ∀ (rs : List FacRecord) (fs : List Facility),
      uidIn u fs → uidIn u (import_facilities rs fs) := by
  intro rs
  induction rs with
  | nil => intro fs h; exact h
  | cons r rs ih => intro fs h; exact ih (stepFacility fs r) (uidIn_step h)

theorem uidIn_run_of_mem :
    ∀ (rs : List FacRecord) (fs : List Facility) (r : FacRecord),
      r ∈ rs → uidIn (uidOf r) (import_facilities rs fs) := by
  intro rs
  induction rs with
  | nil => intro fs r h; exact absurd h (List.not_mem_nil r)
  | cons r0 rs ih =>
    intro fs r hr
    rcases List.mem_cons.mp hr with rfl | hm
    · exact uidIn_run rs (stepFacility fs r) (uidIn_step_self fs r)
    · exact ih (stepFacility fs r0) r hm

theorem run_map :
    ∀ (rs : List FacRecord) (fs : List Facility),
      (∀ r ∈ rs, uidIn (uidOf r) fs) →
      import_facilities rs fs = fs.map (fun f => rs.foldl matchUpd f) := by
  intro rs
  induction rs with
  | nil =>
    intro fs _
    show fs = fs.map (fun f => f)
    rw [List.map_id']
  | cons r rs ih =>
    intro fs h
    have h0 : import_facilities (r :: rs) fs
        = import_facilities rs (stepFacility fs r) := rfl
    rw [h0, stepFacility_of_uidIn (h r (List.mem_cons_self r rs))]
    rw [ih (fs.map (fun f => matchUpd f r))
      (fun r' hr' => uidIn_map_matchUpd (h r' (List.mem_cons_of_mem r hr')))]
    rw [List.map_map]
    rfl

theorem mem_run_cases :
    ∀ (rs : List FacRecord) (fs : List Facility) (f' : Facility),
      f' ∈ import_facilities rs fs →
      (∃ f ∈ fs, f' = rs.foldl matchUpd f) ∨
      (∃ l₁ r l₂, rs = l₁ ++ r :: l₂ ∧
        ¬uidIn (uidOf r) (import_facilities l₁ fs) ∧
        f' = l₂.foldl matchUpd (newFacility r)) := by
  intro rs
  induction rs with
  | nil => intro fs f' h; exact Or.inl ⟨f', h, rfl⟩
  | cons r rs ih =>
    intro fs f' h
    rcases ih (stepFacility fs r) f' h with ⟨f1, hf1, he⟩ | ⟨l₁, r', l₂, heq, hni, he⟩
    · by_cases hany : (fs.any (fun f => f.uid == uidOf r)) = true
      · rw [stepFacility, if_pos hany] at hf1
        obtain ⟨f0, hf0, rfl⟩ := List.mem_map.mp hf1
        exact Or.inl ⟨f0, hf0, by rw [he, List.foldl_cons]⟩
      · rw [stepFacility, if_neg hany] at hf1
        rcases List.mem_append.mp hf1 with hf0 | hf0
        · refine Or.inl ⟨f1, hf0, ?_⟩
          rw [he, List.foldl_cons]
          have hnb : ¬(f1.uid == uidOf r) = true :=
            fun hb => hany (List.any_eq_true.mpr ⟨f1, hf0, hb⟩)
          have hm : matchUpd f1 r = f1 := by
            unfold matchUpd
            rw [if_neg hnb]
          rw [hm]
        · have hf1' : f1 = newFacility r := List.mem_singleton.mp hf0
          refine Or.inr ⟨[], r, rs, rfl, ?_, by rw [he, hf1']⟩
          intro hin
          exact hany (uidIn_any hin)
    · exact Or.inr ⟨r :: l₁, r', l₂, by rw [heq, List.cons_append], hni, he⟩

theorem no_match_fold_id :
    ∀ (l : List FacRecord) (f : Facility),
      (∀ r ∈ l, ¬(f.uid == uidOf r) = true) → l.foldl matchUpd f = f := by
  intro l
  induction l with
  | nil => intro f _; rfl
  | cons r l ih =>
    intro f h
    rw [List.foldl_cons]
    have hm : matchUpd f r = f := by
      unfold matchUpd
      rw [if_neg (h r (List.mem_cons_self r l))]
    rw [hm]
    exact ih f (fun r' hr' => h r' (List.mem_cons_of_mem r hr'))

theorem facility_ext {f g : Facility}
    (h1 : f.uid = g.uid) (h2 : f.name = g.name) (h3 : f.address = g.address)
    (h4 : f.opening_hours = g.opening_hours) (h5 : f.contact = g.contact)
    (h6 : f.additional_info = g.additional_info) (h7 : f.link = g.link) : f = g := by
  cases f
  cases g
  simp_all

theorem foldl_matchUpd_address :
    ∀ (rs : List FacRecord) (f : Facility),
      (rs.foldl matchUpd f).address
        = (incsFor f.uid rs (fun r => r.address)).foldl updS f.address :=
  foldl_matchUpd_field (fun g => g.address) (fun r => r.address) (fun _ _ => rfl)

theorem foldl_matchUpd_opening_hours :
    ∀ (rs : List FacRecord) (f : Facility),
      (rs.foldl matchUpd f).opening_hours
        = (incsFor f.uid rs (fun r => r.opening_hours)).foldl updS f.opening_hours :=
  foldl_matchUpd_field (fun g => g.opening_hours) (fun r => r.opening_hours) (fun _ _ => rfl)

theorem foldl_matchUpd_contact :
    ∀ (rs : List FacRecord) (f : Facility),
      (rs.foldl matchUpd f).contact
        = (incsFor f.uid rs (fun r => r.contact)).foldl updS f.contact :=
  foldl_matchUpd_field (fun g => g.contact) (fun r => r.contact) (fun _ _ => rfl)

theorem foldl_matchUpd_additional_info :
    ∀ (rs : List FacRecord) (f : Facility),
      (rs.foldl matchUpd f).additional_info
        = (incsFor f.uid rs (fun r => r.additional_info)).foldl updS f.additional_info :=
  foldl_matchUpd_field (fun g => g.additional_info) (fun r => r.additional_info) (fun _ _ => rfl)

theorem foldl_matchUpd_link :
    ∀ (rs : List FacRecord) (f : Facility),
      (rs.foldl matchUpd f).link
        = (incsFor f.uid rs (fun r => r.link)).foldl updS f.link :=
  foldl_matchUpd_field (fun g => g.link) (fun r => r.link) (fun _ _ => rfl)

theorem foldl_matchUpd_idem (rs : List FacRecord) (f : Facility) :
    rs.foldl matchUpd (rs.foldl matchUpd f) = rs.foldl matchUpd f := by
  have huid := foldl_matchUpd_uid rs f
  apply facility_ext
  · rw [foldl_matchUpd_uid, foldl_matchUpd_uid]
  · rw [foldl_matchUpd_name, foldl_matchUpd_name]
  · rw [foldl_matchUpd_address rs (rs.foldl matchUpd f), huid, foldl_matchUpd_address rs f]
    exact foldl_updS_idem _ _
  · rw [foldl_matchUpd_opening_hours rs (rs.foldl matchUpd f), huid,
      foldl_matchUpd_opening_hours rs f]
    exact foldl_updS_idem _ _
  · rw [foldl_matchUpd_contact rs (rs.foldl matchUpd f), huid, foldl_matchUpd_contact rs f]
    exact foldl_updS_idem _ _
  · rw [foldl_matchUpd_additional_info rs (rs.foldl matchUpd f), huid,
      foldl_matchUpd_additional_info rs f]
    exact foldl_updS_idem _ _
  · rw [foldl_matchUpd_link rs (rs.foldl matchUpd f), huid, foldl_matchUpd_link rs f]
    exact foldl_updS_idem _ _

theorem created_field_fixed (π : Facility → String) (ρ : FacRecord → String)
    (hπ : ∀ (r : FacRecord) (f : Facility), π (applyRec r f) = updS (π f) (ρ r))
    (hnew : ∀ r : FacRecord, π (newFacility r) = ρ r)
    (l₂ : List FacRecord) (r : FacRecord) :
    π (l₂.foldl matchUpd (applyRec r (l₂.foldl matchUpd (newFacility r))))
      = π (l₂.foldl matchUpd (newFacility r)) := by
  rw [foldl_matchUpd_field π ρ hπ l₂ (applyRec r (l₂.foldl matchUpd (newFacility r))),
    applyRec_uid, foldl_matchUpd_uid, hπ,
    foldl_matchUpd_field π ρ hπ l₂ (newFacility r), hnew]
  exact foldl_updS_absorb _ _

theorem run_fixed :
    ∀ (rs : List FacRecord) (fs : List Facility) (f' : Facility),
      f' ∈ import_facilities rs fs → rs.foldl matchUpd f' = f' := by
  intro rs fs f' h
  rcases mem_run_cases rs fs f' h with ⟨f, _, rfl⟩ | ⟨l₁, r, l₂, rfl, hni, rfl⟩
  · exact foldl_matchUpd_idem rs f
  · have hu : (l₂.foldl matchUpd (newFacility r)).uid = uidOf r := by
      rw [foldl_matchUpd_uid]
      rfl
    have hl1 : ∀ r' ∈ l₁,
        ¬((l₂.foldl matchUpd (newFacility r)).uid == uidOf r') = true := by
      intro r' hr' hb
      apply hni
      rw [hu] at hb
      have he : uidOf r = uidOf r' := eq_of_beq hb
      rw [he]
      exact uidIn_run_of_mem l₁ fs r' hr'
    rw [List.foldl_append, no_match_fold_id l₁ _ hl1, List.foldl_cons]
    have hm : matchUpd (l₂.foldl matchUpd (newFacility r)) r
        = applyRec r (l₂.foldl matchUpd (newFacility r)) := by
      have hb : ((l₂.foldl matchUpd (newFacility r)).uid == uidOf r) = true := by
        rw [hu]
        exact beq_self_eq_true _
      simp only [matchUpd]
      rw [if_pos hb]
    rw [hm]
    apply facility_ext
    · rw [foldl_matchUpd_uid, applyRec_uid]
    · rw [foldl_matchUpd_name, applyRec_name]
    · exact created_field_fixed (fun g => g.address) (fun r => r.address)
        (fun r g => rfl) (fun r => rfl) l₂ r
    · exact created_field_fixed (fun g => g.opening_hours) (fun r => r.opening_hours)
        (fun r g => rfl) (fun r => rfl) l₂ r
    · exact created_field_fixed (fun g => g.contact) (fun r => r.contact)
        (fun r g => rfl) (fun r => rfl) l₂ r
    · exact created_field_fixed (fun g => g.additional_info) (fun r => r.additional_info)
        (fun r g => rfl) (fun r => rfl) l₂ r
    · exact created_field_fixed (fun g => g.link) (fun r => r.link)
        (fun r g => rfl) (fun r => rfl) l₂ r

/-- Running the facility import twice yields the Facility collection of a
single run. -/
theorem import_facilities_idem (rs : List FacRecord) (fs : List Facility) :
    import_facilities rs (import_facilities rs fs) = import_facilities rs fs := by
  rw [run_map rs (import_facilities rs fs) (fun r hr => uidIn_run_of_mem rs fs r hr)]
  have h2 : (import_facilities rs fs).map (fun f => rs.foldl matchUpd f)
      = (import_facilities rs fs).map (fun f => f) :=
    List.map_congr_left (fun f hf => run_fixed rs fs f hf)
  rw [h2, List.map_id']

end Facilities

/-- Claim C1: both imports are idempotent on the store: a second run on
identical input produces an identical store (timestamps, which are wall
clock, excluded from the model) and hence zero net additional entities or
relationships; in particular, for every canonical name the number of
WasteItem, WasteStream and Facility nodes carrying it does not change on
the second run (no duplicates are created by re-importing). -/
theorem claim_C1_idempotent_imports (rows : List WasteItems.WasteItemRow)
    (records : List Facilities.FacRecord) (S : WasteItems.Store) (name : String) :
    WasteItems.importStore rows (WasteItems.importStore rows S)
      = WasteItems.importStore rows S ∧
    Facilities.import_facilities records
        (Facilities.import_facilities records S.facilities)
      = Facilities.import_facilities records S.facilities ∧
    (WasteItems.itemNames
        (WasteItems.importStore rows (WasteItems.importStore rows S))).count name
      = (WasteItems.itemNames (WasteItems.importStore rows S)).count name ∧
    (WasteItems.streamNames
        (WasteItems.importStore rows (WasteItems.importStore rows S))).count name
      = (WasteItems.streamNames (WasteItems.importStore rows S)).count name ∧
    ((Facilities.import_facilities records
        (Facilities.import_facilities records S.facilities)).map
          Facilities.Facility.name).count name
      = ((Facilities.import_facilities records S.facilities).map
          Facilities.Facility.name).count name := by
  refine ⟨WasteItems.importStore_idem rows S,
    Facilities.import_facilities_idem records S.facilities, ?_, ?_, ?_⟩
  · rw [WasteItems.importStore_idem]
  · rw [WasteItems.importStore_idem]
  · rw [Facilities.import_facilities_idem]
